import Mathlib

/-!
Verification of the openSAM build tools (`tools/gen_height_variants.py` and
`tools/indent_anim.py`) against their natural-language specification.

The scripts are line-oriented text transformers.  We embed them shallowly:
a file is a `List String` of its lines (each line keeps its trailing
newline character, exactly as Python's `readlines` produces them), the
height parameter is an exact rational (the heights used are all decimal
literals) and the Python string primitives used by the scripts
(`in`, `replace`, `startswith`, `split`) are re-implemented over `List Char`
by structural recursion so that every definition evaluates by kernel
reduction on concrete inputs.
-/

namespace OpenSAM

/-- Whitespace test matching Python's `str.split()` separator class for the
characters that can occur in these files. -/
def isWsC (c : Char) : Bool := c == ' ' || c == '\t' || c == '\n' || c == '\r'

/-- Greedy word scanner underlying `wsTokens`: `cur` is the reversed current
word.  Splits at `isWsC` characters and drops empty fields, exactly as
Python's `str.split()` with no argument does. -/
def wordsAux : List Char → List Char → List (List Char)
  | [], cur => if cur.isEmpty then [] else [cur.reverse]
  | c :: cs, cur =>
    if isWsC c then
      (if cur.isEmpty then wordsAux cs [] else cur.reverse :: wordsAux cs [])
    else wordsAux cs (c :: cur)

/-- Python's `s.split()`: the maximal whitespace-free words of `s`. -/
def wsTokens (s : String) : List String := (wordsAux s.data []).map String.mk

/-- Substring test on character lists (Python's `sub in s`). -/
def containsSub : List Char → List Char → Bool
  | [], sub => sub.isPrefixOf []
  | c :: cs, sub => sub.isPrefixOf (c :: cs) || containsSub cs sub

/-- Python's `sub in s` for strings. -/
def strContains (s sub : String) : Bool := containsSub s.data sub.data

/-- Python's `s.startswith(p)`. -/
def startsWithL (s p : String) : Bool := p.data.isPrefixOf s.data

/-- Fuelled core of `pyReplace`; with `fuel ≥ s.length` it performs Python's
left-to-right, non-overlapping replacement of `old` by `new` (for the
non-empty `old` the scripts use). -/
def replFuel : Nat → List Char → List Char → List Char → List Char
  | 0, s, _, _ => s
  | _ + 1, [], _, _ => []
  | fuel + 1, c :: cs, old, new =>
    if old.isPrefixOf (c :: cs) && !old.isEmpty then
      new ++ replFuel fuel (List.drop old.length (c :: cs)) old new
    else c :: replFuel fuel cs old new

/-- Python's `s.replace(old, new)` (for non-empty `old`). -/
def pyReplace (s old new : String) : String :=
  String.mk (replFuel s.data.length s.data old.data new.data)

/-- Fuelled decimal digit accumulator for `natDec`. -/
def natDecAux : Nat → Nat → List Char → List Char
  | 0, _, acc => acc
  | fuel + 1, n, acc =>
    if n < 10 then Nat.digitChar n :: acc
    else natDecAux fuel (n / 10) (Nat.digitChar (n % 10) :: acc)

/-- Decimal rendering of a natural number, no leading zeros (`natDec 0 = "0"`). -/
def natDec (n : Nat) : List Char := natDecAux (n + 1) n []

/-- A natural number below 1000 padded to exactly three decimal digits. -/
def pad3 (n : Nat) : List Char :=
  if n < 10 then '0' :: '0' :: natDec n
  else if n < 100 then '0' :: natDec n
  else natDec n

/-- `roundHE1000 q` is `q * 1000` rounded to the nearest integer, ties to
even — the rounding performed by Python's fixed-point formatting
`f"{x:0.3f}"` on the exact value of `x`.  Computed from the reduced
numerator and denominator to stay within kernel-reducible integer
arithmetic: with `t = q.num * 1000` and `d = q.den` we have
`q * 1000 = t / d`, its floor is `t.fdiv d` and `r / d` the fractional
part. -/
def roundHE1000 (q : ℚ) : ℤ :=
  let t : ℤ := q.num * 1000
  let d : ℤ := (q.den : ℤ)
  let f : ℤ := t.fdiv d
  let r : ℤ := t - f * d
  if 2 * r < d then f
  else if d < 2 * r then f + 1
  else if f % 2 = 0 then f else f + 1

/-- Python's `f"{q:0.3f}"` on the exact rational value `q`: optional sign,
the integer part, a dot and exactly three fractional digits, rounding the
magnitude to the nearest thousandth (ties to even). -/
def fmt3 (q : ℚ) : String :=
  String.mk
    ((if q < 0 then ['-'] else []) ++
      (natDec ((roundHE1000 |q|).toNat / 1000) ++ '.' ::
        pad3 ((roundHE1000 |q|).toNat % 1000)))

/-- The epsilon `0.03` of `gen_variant`. -/
def eps03 : ℚ := mkRat 3 100

/-- The fixed 180-degree rotation directive emitted for mirrored variants. -/
def rotLine : String := "    ANIM_rotate 0 1 0 180 180 0 1 no_ref\n"

/-- The translation directive emitted for a height delta `dh`:
`f"    ANIM_trans\t   0.0000    {dh:0.3f}    0.0000\t   0.0000    {dh:0.3f}    0.0000\t0 0\tno_ref\n"`. -/
def transLine (dh : ℚ) : String :=
  "    ANIM_trans\t   0.0000    " ++ fmt3 dh ++ "    0.0000\t   0.0000    " ++
    fmt3 dh ++ "    0.0000\t0 0\tno_ref\n"

/-- The body of `gen_variant`'s `for l in lines:` loop, emitting output lines
in order instead of appending to `vlines`; `firstLod` and `nNo` are the
loop's `first_lod` and `n_no_opensam` variables. -/
def genLoop (dh : ℚ) (turn180 : Bool) : List String → Bool → ℤ → List String
  | [], _, _ => []
  | l :: ls, firstLod, nNo =>
    if strContains l "# NO-openSAM_end" then
      genLoop dh turn180 ls firstLod (nNo - 1)
    else
      let n1 : ℤ := if strContains l "# NO-openSAM_begin" then nNo + 1 else nNo
      if 0 < n1 then
        genLoop dh turn180 ls firstLod n1
      else
        let l1 := pyReplace l "AutoDGS" "opensam"
        (if strContains l1 "LOD" && !firstLod then ["ANIM_end\n"] else [])
          ++ [l1]
          ++ (if strContains l1 "LOD" then
                "ANIM_begin\n" ::
                  ((if turn180 && !(startsWithL l1 "#") then [rotLine] else [])
                    ++ (if |dh| ≤ eps03 then [] else [transLine dh]))
              else [])
          ++ genLoop dh turn180 ls
              (if strContains l1 "LOD" then false else firstLod) n1

/-- `gen_variant(master, v_name, height, turn_180)` as a pure function from
the master template's lines to the produced variant's lines (the read of
`master` and the write to `v_name` are the call boundary's I/O; `dh` is the
local alias of `height`, with the baseline at 0). -/
def gen_variant (master : List String) (height : ℚ) (turn_180 : Bool) : List String :=
  genLoop height turn_180 master true 0 ++ ["\nANIM_end\n"]

/-- The `n_no_opensam` counter's update for one line: the loop tests the end
sentinel first, so a line holding both sentinels counts as an end. -/
def sentinelDelta (l : String) : ℤ :=
  if strContains l "# NO-openSAM_end" then -1
  else if strContains l "# NO-openSAM_begin" then 1 else 0

/-- The lines of the template that reach the emitting part of the loop
(already renamed), given the entry value of the exclusion counter. -/
def survivorsAux : List String → ℤ → List String
  | [], _ => []
  | l :: ls, nNo =>
    if strContains l "# NO-openSAM_end" then survivorsAux ls (nNo - 1)
    else
      let n1 : ℤ := if strContains l "# NO-openSAM_begin" then nNo + 1 else nNo
      if 0 < n1 then survivorsAux ls n1
      else pyReplace l "AutoDGS" "opensam" :: survivorsAux ls n1

/-- The renamed template lines outside every exclusion region. -/
def survivors (lines : List String) : List String := survivorsAux lines 0

/-- The exclusion counter's value after processing `lines` from value `nNo`. -/
def ctrAfter : List String → ℤ → ℤ
  | [], nNo => nNo
  | l :: ls, nNo => ctrAfter ls (nNo + sentinelDelta l)

/-- The output block the loop emits for one surviving (renamed) line. -/
def lineBlock (dh : ℚ) (turn180 : Bool) (firstLod : Bool) (l1 : String) : List String :=
  (if strContains l1 "LOD" && !firstLod then ["ANIM_end\n"] else [])
    ++ [l1]
    ++ (if strContains l1 "LOD" then
          "ANIM_begin\n" ::
            ((if turn180 && !(startsWithL l1 "#") then [rotLine] else [])
              ++ (if |dh| ≤ eps03 then [] else [transLine dh]))
        else [])

/-- The generator's output as the concatenation of the per-line blocks of the
surviving lines. -/
def emitAll (dh : ℚ) (turn180 : Bool) : Bool → List String → List String
  | _, [] => []
  | firstLod, l :: ls =>
    lineBlock dh turn180 firstLod l
      ++ emitAll dh turn180 (if strContains l "LOD" then false else firstLod) ls

/-- Number of section markers (lines containing "LOD") outside exclusion
regions. -/
def lodCount (lines : List String) : Nat :=
  (survivors lines).countP (fun l => strContains l "LOD")

/-- A balanced, properly nested exclusion region: it starts with a begin
sentinel, its sentinel balance returns to zero exactly at its end and stays
at least 1 on every proper non-empty prefix (nested begin/end pairs keep the
balance above zero until the final end). -/
def IsRegion (R : List String) : Prop :=
  (∃ b T, R = b :: T ∧ sentinelDelta b = 1) ∧
    (R.map sentinelDelta).sum = 0 ∧
    ∀ p, p <+: R → p ≠ R → p ≠ [] → 1 ≤ (p.map sentinelDelta).sum

/-- Number of adjacent pairs `(a, b)` in a list of lines. -/
def countPair (a b : String) : List String → Nat
  | x :: y :: t => (if x = a ∧ y = b then 1 else 0) + countPair a b (y :: t)
  | _ => 0

/-- Pair count contributed by the boundary between two concatenated lists. -/
def bcount (a b : String) : Option String → Option String → Nat
  | some x, some y => if x = a ∧ y = b then 1 else 0
  | _, _ => 0

/-- Whether a line is one of the generator's section-closing directives: the
"ANIM_end" line emitted before a later section marker, or the final close
(with its leading blank line) appended after the loop. -/
def isCloseDir (l : String) : Bool := l == "ANIM_end\n" || l == "\nANIM_end\n"

/-- The fixed root directory of the manifest checker. -/
def targetDir : String := "../openSAM-pkg/openSAM_Library"

/-- The diagnostic `check` prints for a missing path `f`:
`f"Does not exist: '{target_dir}/{f}'"`. -/
def diagLine (f : String) : String :=
  "Does not exist: '" ++ targetDir ++ "/" ++ f ++ "'"

/-- The line `check` prints when every referenced file exists. -/
def passLine : String := "All files in library.txt exist"

/-- The relative paths `check` collects: the third whitespace-separated token
of every line of `library.txt` that starts with "EXPORT". -/
def exportPaths (library : List String) : List String :=
  (library.filter (fun l => startsWithL l "EXPORT")).map
    (fun l => (wsTokens l).getD 2 "")

/-- `check()` as a pure function of the manifest's lines and of the
filesystem (a predicate giving `os.path.exists` on each path), returning the
printed lines in order: one diagnostic per missing unique path, then the
pass line when none was missing (`res` stayed `True`). -/
def check (library : List String) (fsExists : String → Bool) : List String :=
  let files := (exportPaths library).dedup
  let missing := files.filter (fun f => !fsExists (targetDir ++ "/" ++ f))
  missing.map diagLine ++ (if missing.isEmpty then [passLine] else [])

/-- Python's `" " * indent`, empty for a non-positive `indent`. -/
def spaces (indent : ℤ) : String := String.mk (List.replicate indent.toNat ' ')

/-- The indentation loop of `tools/indent_anim.py`: a line holding the begin
marker is written at the current indent which then grows by 4, a line
holding the end marker shrinks the indent by 4 before being written, any
other line is written at the current indent. -/
def indentAnim : List String → ℤ → List String
  | [], _ => []
  | l :: ls, indent =>
    if strContains l "ANIM_begin" then
      (spaces indent ++ l) :: indentAnim ls (indent + 4)
    else if strContains l "ANIM_end" then
      (spaces (indent - 4) ++ l) :: indentAnim ls (indent - 4)
    else (spaces indent ++ l) :: indentAnim ls indent

/-- The whole reformatter: the loop started at indent 0. -/
def indent_anim (lines : List String) : List String := indentAnim lines 0

/-- Modelled from the spec (section 4.4): the indent at which a line is
emitted — the current level, decreased by one step first for a line holding
the end marker. -/
def lineIndent (l : String) (indent : ℤ) : ℤ :=
  if strContains l "ANIM_begin" then indent
  else if strContains l "ANIM_end" then indent - 4 else indent

/-- Modelled from the spec (section 4.4): the level for the next line —
increased after a begin line, decreased after an end line. -/
def nextIndent (l : String) (indent : ℤ) : ℤ :=
  if strContains l "ANIM_begin" then indent + 4
  else if strContains l "ANIM_end" then indent - 4 else indent

/-- The indent level used for each line in turn. -/
def levels : List String → ℤ → List ℤ
  | [], _ => []
  | l :: ls, indent => lineIndent l indent :: levels ls (nextIndent l indent)

/-- Modelled from the spec (section 4.4): every line emitted in order,
prefixed by the indent `lineIndent` assigns it. -/
def indentSpec : List String → ℤ → List String
  | [], _ => []
  | l :: ls, indent =>
    (spaces (lineIndent l indent) ++ l) :: indentSpec ls (nextIndent l indent)

/-! ### The exclusion counter and the surviving lines -/

theorem sentinelDelta_one {l : String} (h : sentinelDelta l = 1) :
    strContains l "# NO-openSAM_end" = false ∧
      strContains l "# NO-openSAM_begin" = true := by
  by_cases he : strContains l "# NO-openSAM_end"
  · simp [sentinelDelta, he] at h
  · by_cases hb : strContains l "# NO-openSAM_begin"
    · exact ⟨by simp [he], hb⟩
    · simp [sentinelDelta, he, hb] at h

theorem sentinelDelta_zero {l : String} (h : sentinelDelta l = 0) :
    strContains l "# NO-openSAM_end" = false ∧
      strContains l "# NO-openSAM_begin" = false := by
  by_cases he : strContains l "# NO-openSAM_end"
  · simp [sentinelDelta, he] at h
  · by_cases hb : strContains l "# NO-openSAM_begin"
    · simp [sentinelDelta, he, hb] at h
    · exact ⟨by simp [he], by simp [hb]⟩

theorem survivorsAux_append : ∀ (A B : List String) (n : ℤ),
    survivorsAux (A ++ B) n = survivorsAux A n ++ survivorsAux B (ctrAfter A n) := by
  intro A
  induction A with
  | nil => intro B n; simp [survivorsAux, ctrAfter]
  | cons l T ih =>
      intro B n
      by_cases he : strContains l "# NO-openSAM_end"
      · have hd : sentinelDelta l = -1 := by simp [sentinelDelta, he]
        simp only [List.cons_append, List.append_eq, survivorsAux, he, if_true, ctrAfter, hd]
        rw [show n + (-1) = n - 1 by ring]
        exact ih B (n - 1)
      · by_cases hb : strContains l "# NO-openSAM_begin"
        · have hd : sentinelDelta l = 1 := by simp [sentinelDelta, he, hb]
          by_cases hpos : 0 < n + 1
          · simp only [List.cons_append, List.append_eq, survivorsAux, he, hb, ctrAfter, hd,
              if_true, if_false, hpos, Bool.false_eq_true]
            exact ih B (n + 1)
          · simp only [List.cons_append, List.append_eq, survivorsAux, he, hb, ctrAfter, hd,
              if_true, if_false, hpos, Bool.false_eq_true]
            rw [ih B (n + 1)]
        · have hd : sentinelDelta l = 0 := by simp [sentinelDelta, he, hb]
          by_cases hpos : 0 < n
          · simp only [List.cons_append, List.append_eq, survivorsAux, he, hb, ctrAfter, hd,
              if_true, if_false, hpos, Bool.false_eq_true, add_zero]
            exact ih B n
          · simp only [List.cons_append, List.append_eq, survivorsAux, he, hb, ctrAfter, hd,
              if_true, if_false, hpos, Bool.false_eq_true, add_zero]
            rw [ih B n]

theorem skip_aux : ∀ (R B : List String) (n : ℤ),
    (∀ p, p <+: R → p ≠ R → 1 ≤ n + (p.map sentinelDelta).sum) →
    survivorsAux (R ++ B) n = survivorsAux B (n + (R.map sentinelDelta).sum) := by
  intro R
  induction R with
  | nil => intro B n _; simp [survivorsAux]
  | cons l T ih =>
      intro B n hH
      have hn : 1 ≤ n := by
        have := hH [] ⟨l :: T, rfl⟩ (by simp)
        simpa using this
      have hstep : sentinelDelta l = sentinelDelta l → ∀ p, p <+: T → p ≠ T →
          1 ≤ (n + sentinelDelta l) + (p.map sentinelDelta).sum := by
        intro _ p hp hne
        have := hH (l :: p) (List.cons_prefix_cons.mpr ⟨rfl, hp⟩) (by simp [hne])
        simp only [List.map_cons, List.sum_cons] at this
        omega
      have hstep := hstep rfl
      by_cases he : strContains l "# NO-openSAM_end"
      · have hd : sentinelDelta l = -1 := by simp [sentinelDelta, he]
        rw [hd] at hstep
        simp only [List.cons_append, List.append_eq, survivorsAux, he, if_true]
        rw [show n - 1 = n + (-1) by ring]
        rw [ih B (n + (-1)) hstep]
        simp [hd]
        ring_nf
      · by_cases hb : strContains l "# NO-openSAM_begin"
        · have hd : sentinelDelta l = 1 := by simp [sentinelDelta, he, hb]
          rw [hd] at hstep
          have hpos : 0 < n + 1 := by omega
          simp only [List.cons_append, List.append_eq, survivorsAux, he, hb, if_true, if_false,
            Bool.false_eq_true, hpos]
          rw [ih B (n + 1) hstep]
          simp [hd]
          ring_nf
        · have hd : sentinelDelta l = 0 := by simp [sentinelDelta, he, hb]
          rw [hd, add_zero] at hstep
          have hpos : 0 < n := by omega
          simp only [List.cons_append, List.append_eq, survivorsAux, he, hb, if_true, if_false,
            Bool.false_eq_true, hpos]
          rw [ih B n hstep]
          simp [hd]

theorem region_skip (R B : List String) (n : ℤ) (hreg : IsRegion R) (hn : 0 ≤ n) :
    survivorsAux (R ++ B) n = survivorsAux B n := by
  obtain ⟨⟨b, T, rfl, hb1⟩, hsum, hpre⟩ := hreg
  have hbe := sentinelDelta_one hb1
  have hpos : 0 < n + 1 := by omega
  have h1 : survivorsAux ((b :: T) ++ B) n = survivorsAux (T ++ B) (n + 1) := by
    simp only [List.cons_append, List.append_eq, survivorsAux, hbe.1, hbe.2, if_true, if_false,
      Bool.false_eq_true, hpos]
  have hT : ∀ p, p <+: T → p ≠ T → 1 ≤ (n + 1) + (p.map sentinelDelta).sum := by
    intro p hp hne
    have := hpre (b :: p) (List.cons_prefix_cons.mpr ⟨rfl, hp⟩) (by simp [hne]) (by simp)
    simp only [List.map_cons, List.sum_cons, hb1] at this
    omega
  rw [h1, skip_aux T B (n + 1) hT]
  have hsum2 : sentinelDelta b + (T.map sentinelDelta).sum = 0 := by
    simpa using hsum
  rw [hb1] at hsum2
  have : n + 1 + (T.map sentinelDelta).sum = n := by omega
  rw [this]

theorem genLoop_eq : ∀ (ls : List String) (dh : ℚ) (t fl : Bool) (n : ℤ),
    genLoop dh t ls fl n = emitAll dh t fl (survivorsAux ls n) := by
  intro ls dh t
  induction ls with
  | nil => intro fl n; rfl
  | cons l T ih =>
      intro fl n
      by_cases he : strContains l "# NO-openSAM_end"
      · simp only [genLoop, survivorsAux, he, if_true]
        exact ih fl (n - 1)
      · by_cases hpos : 0 < (if strContains l "# NO-openSAM_begin" then n + 1 else n)
        · simp only [genLoop, survivorsAux, he, if_false, Bool.false_eq_true, hpos, if_true]
          exact ih fl _
        · simp only [genLoop, survivorsAux, he, if_false, Bool.false_eq_true, hpos,
            emitAll, lineBlock]
          rw [ih]

theorem survivorsAux_mem : ∀ (ls : List String) (n : ℤ) (x : String),
    x ∈ survivorsAux ls n → ∃ l ∈ ls, x = pyReplace l "AutoDGS" "opensam" := by
  intro ls
  induction ls with
  | nil => intro n x hx; simp [survivorsAux] at hx
  | cons l T ih =>
      intro n x hx
      by_cases he : strContains l "# NO-openSAM_end"
      · simp only [survivorsAux, he, if_true] at hx
        obtain ⟨l2, hl2, hx2⟩ := ih _ x hx
        exact ⟨l2, List.mem_cons_of_mem l hl2, hx2⟩
      · by_cases hpos : 0 < (if strContains l "# NO-openSAM_begin" then n + 1 else n)
        · simp only [survivorsAux, he, if_false, Bool.false_eq_true, hpos, if_true] at hx
          obtain ⟨l2, hl2, hx2⟩ := ih _ x hx
          exact ⟨l2, List.mem_cons_of_mem l hl2, hx2⟩
        · simp only [survivorsAux, he, if_false, Bool.false_eq_true, hpos] at hx
          rcases List.mem_cons.mp hx with h | h
          · exact ⟨l, List.mem_cons_self l T, h⟩
          · obtain ⟨l2, hl2, hx2⟩ := ih _ x h
            exact ⟨l2, List.mem_cons_of_mem l hl2, hx2⟩

/-! ### Basic string lemmas -/

theorem data_inj {s t : String} (h : s.data = t.data) : s = t := String.ext h

theorem ne_of_get (k : Nat) {s t : String} (h : s.data[k]? ≠ t.data[k]?) :
    s ≠ t := fun e => h (by rw [e])

theorem empty_append (s : String) : "" ++ s = s := by
  apply data_inj; simp [String.data_append]

theorem spaces_nonpos {k : ℤ} (h : k ≤ 0) : spaces k = "" := by
  simp [spaces, Int.toNat_of_nonpos h]

/-! ### The emitted directive lines are pairwise distinguishable -/

theorem transLine_data (dh : ℚ) : (transLine dh).data =
    "    ANIM_trans\t   0.0000    ".data ++ ((fmt3 dh).data ++
      ("    0.0000\t   0.0000    ".data ++
        ((fmt3 dh).data ++ "    0.0000\t0 0\tno_ref\n".data))) := by
  simp [transLine, String.data_append, List.append_assoc]

theorem transLine_head (dh : ℚ) : (transLine dh).data[0]? = some ' ' := by
  rw [transLine_data]; rfl

theorem transLine_9 (dh : ℚ) : (transLine dh).data[9]? = some 't' := by
  rw [transLine_data]; rfl

theorem transLine_ne_rot (dh : ℚ) : transLine dh ≠ rotLine :=
  ne_of_get 9 (by rw [transLine_9]; decide)

theorem transLine_ne_close (dh : ℚ) : transLine dh ≠ "ANIM_end\n" :=
  ne_of_get 0 (by rw [transLine_head]; decide)

theorem transLine_ne_begin (dh : ℚ) : transLine dh ≠ "ANIM_begin\n" :=
  ne_of_get 0 (by rw [transLine_head]; decide)

theorem transLine_ne_final (dh : ℚ) : transLine dh ≠ "\nANIM_end\n" :=
  ne_of_get 0 (by rw [transLine_head]; decide)

theorem strContains_trans_no (dh : ℚ) :
    strContains (transLine dh) "ANIM_trans" = true := by
  unfold strContains
  rw [transLine_data]
  rfl

/-! ### Membership shape of the generator's output -/

theorem lineBlock_mem_eps {dh : ℚ} {t fl : Bool} {l1 x : String}
    (heps : |dh| ≤ eps03) (hx : x ∈ lineBlock dh t fl l1) :
    x = l1 ∨ x = "ANIM_end\n" ∨ x = "ANIM_begin\n" ∨ x = rotLine := by
  unfold lineBlock at hx
  rw [if_pos heps] at hx
  rcases List.mem_append.mp hx with h | h
  · rcases List.mem_append.mp h with h1 | h1
    · split at h1
      · simp at h1; exact Or.inr (Or.inl h1)
      · simp at h1
    · simp at h1; exact Or.inl h1
  · split at h
    · rcases List.mem_cons.mp h with h1 | h1
      · exact Or.inr (Or.inr (Or.inl h1))
      · rw [List.append_nil] at h1
        split at h1
        · simp at h1; exact Or.inr (Or.inr (Or.inr h1))
        · simp at h1
    · simp at h

theorem emitAll_mem_eps {dh : ℚ} {t : Bool} (heps : |dh| ≤ eps03) :
    ∀ (svs : List String) (fl : Bool) (x : String), x ∈ emitAll dh t fl svs →
      x ∈ svs ∨ x = "ANIM_end\n" ∨ x = "ANIM_begin\n" ∨ x = rotLine := by
  intro svs
  induction svs with
  | nil => intro fl x hx; simp [emitAll] at hx
  | cons l rest ih =>
      intro fl x hx
      rw [emitAll] at hx
      rcases List.mem_append.mp hx with h | h
      · rcases lineBlock_mem_eps heps h with h1 | h1 | h1 | h1
        · exact Or.inl (h1 ▸ List.mem_cons_self l rest)
        · exact Or.inr (Or.inl h1)
        · exact Or.inr (Or.inr (Or.inl h1))
        · exact Or.inr (Or.inr (Or.inr h1))
      · rcases ih _ x h with h1 | h1 | h1 | h1
        · exact Or.inl (List.mem_cons_of_mem l h1)
        · exact Or.inr (Or.inl h1)
        · exact Or.inr (Or.inr (Or.inl h1))
        · exact Or.inr (Or.inr (Or.inr h1))

/-- C1.  Within epsilon of the baseline (`|height| ≤ 0.03`), the generator
emits no translation directive: provided the renamed template lines hold no
"ANIM_trans" text themselves, no line of the output does. -/
theorem claim_C1_eps_omits_trans (master : List String) (dh : ℚ) (t : Bool)
    (heps : |dh| ≤ eps03)
    (hm : ∀ l ∈ master, strContains (pyReplace l "AutoDGS" "opensam") "ANIM_trans" = false) :
    ∀ x ∈ gen_variant master dh t, strContains x "ANIM_trans" = false := by
  intro x hx
  rcases List.mem_append.mp hx with h | h
  · rw [genLoop_eq] at h
    rcases emitAll_mem_eps heps _ _ x h with h1 | h1 | h1 | h1
    · obtain ⟨l, hl, rfl⟩ := survivorsAux_mem master 0 x h1
      exact hm l hl
    · rw [h1]; decide
    · rw [h1]; decide
    · rw [h1]; decide
  · simp at h
    rw [h]; decide

theorem claim_C1_witness :
    strContains "ANIM_begin\n" "ANIM_trans" = false :=
  claim_C1_eps_omits_trans ["ATTR_LOD 0 100\n"] 0 false (by decide) (by decide)
    "ANIM_begin\n" (by decide)

/-! ### Counting the emitted translation directives -/

theorem count_block_trans {dh : ℚ} {t fl : Bool} {l1 : String} (hde : ¬ |dh| ≤ eps03)
    (hne : l1 ≠ transLine dh) :
    (lineBlock dh t fl l1).count (transLine dh) =
      if strContains l1 "LOD" then 1 else 0 := by
  have n1 := Ne.symm (transLine_ne_close dh)
  have n2 := Ne.symm (transLine_ne_begin dh)
  have n3 := Ne.symm (transLine_ne_rot dh)
  unfold lineBlock
  rw [if_neg hde]
  by_cases hL : strContains l1 "LOD" <;>
    by_cases hf : fl <;>
      by_cases hr : t && !(startsWithL l1 "#") <;>
        simp [hL, hf, hr, List.count_append, List.count_cons, hne, n1, n2, n3]

theorem emitAll_count_trans {dh : ℚ} {t : Bool} (hde : ¬ |dh| ≤ eps03) :
    ∀ (svs : List String) (fl : Bool), (∀ x ∈ svs, x ≠ transLine dh) →
      (emitAll dh t fl svs).count (transLine dh) =
        svs.countP (fun l => strContains l "LOD") := by
  intro svs
  induction svs with
  | nil => intro fl _; rfl
  | cons l rest ih =>
      intro fl hall
      rw [emitAll, List.count_append,
        count_block_trans hde (hall l (List.mem_cons_self l rest)),
        ih _ (fun x hx => hall x (List.mem_cons_of_mem l hx)), List.countP_cons]
      by_cases hL : strContains l "LOD" <;> simp [hL, Nat.add_comm]

/-! ### The token structure of the translation directive -/

theorem wordsAux_nonws : ∀ (m : List Char), (∀ c ∈ m, isWsC c = false) →
    ∀ (rest acc : List Char),
      wordsAux (m ++ rest) acc = wordsAux rest (m.reverse ++ acc) := by
  intro m
  induction m with
  | nil => intro _ rest acc; simp
  | cons c m ih =>
      intro hm rest acc
      have hc : isWsC c = false := hm c (List.mem_cons_self c m)
      simp only [List.cons_append, List.append_eq, wordsAux, hc, Bool.false_eq_true, if_false]
      rw [ih (fun x hx => hm x (List.mem_cons_of_mem c hx)) rest (c :: acc)]
      simp

theorem wordsAux_flush (c : Char) (hc : isWsC c = true) (acc : List Char)
    (ha : acc ≠ []) (rest : List Char) :
    wordsAux (c :: rest) acc = acc.reverse :: wordsAux rest [] := by
  cases acc with
  | nil => exact absurd rfl ha
  | cons a as => simp [wordsAux, hc]

theorem natDecAux_all {P : Char → Prop} (hd : ∀ m, m < 10 → P (Nat.digitChar m)) :
    ∀ (fuel n : Nat) (acc : List Char), (∀ c ∈ acc, P c) →
      ∀ c ∈ natDecAux fuel n acc, P c := by
  intro fuel
  induction fuel with
  | zero => intro n acc hacc c hc; exact hacc c hc
  | succ fuel ih =>
      intro n acc hacc c hc
      by_cases hn : n < 10
      · rw [natDecAux, if_pos hn] at hc
        rcases List.mem_cons.mp hc with h | h
        · exact h ▸ hd n hn
        · exact hacc c h
      · rw [natDecAux, if_neg hn] at hc
        refine ih (n / 10) _ ?_ c hc
        intro x hx
        rcases List.mem_cons.mp hx with h | h
        · exact h ▸ hd (n % 10) (Nat.mod_lt n (by omega))
        · exact hacc x h

theorem digitChar_not_ws : ∀ m, m < 10 → isWsC (Nat.digitChar m) = false := by
  intro m hm
  interval_cases m <;> rfl

theorem natDec_not_ws (n : Nat) : ∀ c ∈ natDec n, isWsC c = false :=
  natDecAux_all digitChar_not_ws (n + 1) n [] (by simp)

theorem pad3_not_ws (n : Nat) : ∀ c ∈ pad3 n, isWsC c = false := by
  unfold pad3
  split
  · intro c hc
    rcases List.mem_cons.mp hc with h | h
    · exact h ▸ rfl
    rcases List.mem_cons.mp h with h1 | h1
    · exact h1 ▸ rfl
    · exact natDec_not_ws _ c h1
  · split
    · intro c hc
      rcases List.mem_cons.mp hc with h | h
      · exact h ▸ rfl
      · exact natDec_not_ws _ c h
    · exact natDec_not_ws _

theorem fmt3_data (q : ℚ) : (fmt3 q).data =
    (if q < 0 then ['-'] else []) ++
      (natDec ((roundHE1000 |q|).toNat / 1000) ++ '.' ::
        pad3 ((roundHE1000 |q|).toNat % 1000)) := rfl

theorem fmt3_not_ws (q : ℚ) : ∀ c ∈ (fmt3 q).data, isWsC c = false := by
  intro c hc
  rw [fmt3_data] at hc
  rcases List.mem_append.mp hc with h | h
  · split at h
    · rcases List.mem_cons.mp h with h1 | h1
      · exact h1 ▸ rfl
      · simp at h1
    · simp at h
  · rcases List.mem_append.mp h with h1 | h1
    · exact natDec_not_ws _ c h1
    · rcases List.mem_cons.mp h1 with h2 | h2
      · exact h2 ▸ rfl
      · exact pad3_not_ws _ c h2

theorem fmt3_ne_nil (q : ℚ) : (fmt3 q).data ≠ [] := by
  rw [fmt3_data]
  intro h
  have := congrArg List.length h
  simp [List.length_append] at this

theorem fmt3_reverse_ne_nil (q : ℚ) : (fmt3 q).data.reverse ≠ [] := by
  intro h
  exact fmt3_ne_nil q (by simpa using congrArg List.reverse h)

theorem seg1 (rest : List Char) :
    wordsAux ("    ANIM_trans\t   0.0000    ".data ++ rest) [] =
      "ANIM_trans".data :: "0.0000".data :: wordsAux rest [] := rfl

theorem seg2 (rest : List Char) :
    wordsAux ("   0.0000\t   0.0000    ".data ++ rest) [] =
      "0.0000".data :: "0.0000".data :: wordsAux rest [] := rfl

theorem seg3 : wordsAux "   0.0000\t0 0\tno_ref\n".data [] =
    ["0.0000".data, "0".data, "0".data, "no_ref".data] := rfl

theorem wsTokens_transLine (dh : ℚ) :
    wsTokens (transLine dh) =
      ["ANIM_trans", "0.0000", fmt3 dh, "0.0000", "0.0000", fmt3 dh,
        "0.0000", "0", "0", "no_ref"] := by
  unfold wsTokens
  rw [transLine_data, seg1, wordsAux_nonws _ (fmt3_not_ws dh) _ [], List.append_nil]
  rw [show ("    0.0000\t   0.0000    ".data ++
        ((fmt3 dh).data ++ "    0.0000\t0 0\tno_ref\n".data)) =
      ' ' :: ("   0.0000\t   0.0000    ".data ++
        ((fmt3 dh).data ++ "    0.0000\t0 0\tno_ref\n".data)) from rfl]
  rw [wordsAux_flush ' ' rfl _ (fmt3_reverse_ne_nil dh) _, List.reverse_reverse]
  rw [seg2, wordsAux_nonws _ (fmt3_not_ws dh) _ [], List.append_nil]
  rw [show ("    0.0000\t0 0\tno_ref\n".data) =
      ' ' :: "   0.0000\t0 0\tno_ref\n".data from rfl]
  rw [wordsAux_flush ' ' rfl _ (fmt3_reverse_ne_nil dh) _, List.reverse_reverse]
  rw [seg3]
  rfl

/-- C2.  Outside epsilon (`0.03 < |height|`), every surviving section marker
(line containing "LOD") makes the generator emit exactly one translation
directive (provided no renamed template line is itself that directive), and
that directive's whitespace-separated tokens put the formatted value
`height - baseline` exactly in the two vertical slots of the "from" and
"to" vectors, with the four other numeric slots and both flags zero and the
reference marker `no_ref`. -/
theorem claim_C2_trans_directive (master : List String) (dh : ℚ) (t : Bool)
    (hde : eps03 < |dh|)
    (hm : ∀ l ∈ master, pyReplace l "AutoDGS" "opensam" ≠ transLine dh) :
    (gen_variant master dh t).count (transLine dh) = lodCount master ∧
      wsTokens (transLine dh) =
        ["ANIM_trans", "0.0000", fmt3 dh, "0.0000", "0.0000", fmt3 dh,
          "0.0000", "0", "0", "no_ref"] := by
  refine ⟨?_, wsTokens_transLine dh⟩
  have hde2 : ¬ |dh| ≤ eps03 := not_le.mpr hde
  unfold gen_variant
  rw [List.count_append, genLoop_eq,
    emitAll_count_trans hde2 _ true (fun x hx => by
      obtain ⟨l, hl, rfl⟩ := survivorsAux_mem master 0 x hx
      exact hm l hl)]
  have hlast : (["\nANIM_end\n"] : List String).count (transLine dh) = 0 := by
    simp [List.count_cons, Ne.symm (transLine_ne_final dh)]
  rw [hlast, lodCount, survivors, Nat.add_zero]

theorem claim_C2_witness :
    (gen_variant ["ATTR_LOD 0 100\n"] 4 false).count (transLine 4) =
        lodCount ["ATTR_LOD 0 100\n"] ∧
      wsTokens (transLine 4) =
        ["ANIM_trans", "0.0000", fmt3 4, "0.0000", "0.0000", fmt3 4,
          "0.0000", "0", "0", "no_ref"] :=
  claim_C2_trans_directive ["ATTR_LOD 0 100\n"] 4 false (by decide) (by decide)

/-! ### Counting the closing directives (C4) -/

theorem isCloseDir_eq_false {x : String} (h1 : x ≠ "ANIM_end\n")
    (h2 : x ≠ "\nANIM_end\n") : isCloseDir x = false := by
  simp [isCloseDir, h1, h2]

theorem isCloseDir_trans (dh : ℚ) : isCloseDir (transLine dh) = false :=
  isCloseDir_eq_false (transLine_ne_close dh) (transLine_ne_final dh)

theorem count_block_close {dh : ℚ} {t fl : Bool} {l1 : String}
    (hl : isCloseDir l1 = false) :
    (lineBlock dh t fl l1).countP isCloseDir =
      if strContains l1 "LOD" && !fl then 1 else 0 := by
  have n1 : isCloseDir "ANIM_end\n" = true := by decide
  have n2 : isCloseDir "ANIM_begin\n" = false := by decide
  have n3 : isCloseDir rotLine = false := by decide
  have n4 := isCloseDir_trans dh
  unfold lineBlock
  by_cases hL : strContains l1 "LOD" <;>
    by_cases hf : fl <;>
      by_cases hr : t && !(startsWithL l1 "#") <;>
        by_cases hd : |dh| ≤ eps03 <;>
          simp [hL, hf, hr, hd, List.countP_append, List.countP_cons, hl, n1, n2, n3, n4]

theorem emitAll_countP_close {dh : ℚ} {t : Bool} :
    ∀ (svs : List String) (fl : Bool), (∀ x ∈ svs, isCloseDir x = false) →
      (emitAll dh t fl svs).countP isCloseDir =
        svs.countP (fun l => strContains l "LOD") - (if fl then 1 else 0) := by
  intro svs
  induction svs with
  | nil => intro fl _; simp [emitAll]
  | cons l rest ih =>
      intro fl hall
      rw [emitAll, List.countP_append,
        count_block_close (hall l (List.mem_cons_self l rest)),
        ih _ (fun x hx => hall x (List.mem_cons_of_mem l hx)), List.countP_cons]
      by_cases hL : strContains l "LOD" <;> by_cases hf : fl <;>
        simp [hL, hf] <;> try omega

/-- C4 as stated is false: on a template with no section marker the output
still holds the one unconditionally appended final close, so it has one
closing directive against zero section markers. -/
theorem claim_C4_counterexample :
    ¬ ((gen_variant ["hello\n"] 0 false).countP isCloseDir =
        lodCount ["hello\n"]) := by decide

/-- C4, amended.  For every template with at least one surviving section
marker (and whose renamed lines are not themselves closing directives), the
number of closing directives in the output — the "ANIM_end" closes emitted
before later section markers together with the final appended close —
equals the number of section markers encountered. -/
theorem claim_C4_close_count (master : List String) (dh : ℚ) (t : Bool)
    (hpos : 1 ≤ lodCount master)
    (hm : ∀ l ∈ master, isCloseDir (pyReplace l "AutoDGS" "opensam") = false) :
    (gen_variant master dh t).countP isCloseDir = lodCount master := by
  unfold gen_variant
  rw [List.countP_append, genLoop_eq,
    emitAll_countP_close _ true (fun x hx => by
      obtain ⟨l, hl, rfl⟩ := survivorsAux_mem master 0 x hx
      exact hm l hl)]
  have hlast : (["\nANIM_end\n"] : List String).countP isCloseDir = 1 := by decide
  rw [hlast]
  rw [lodCount, survivors] at hpos ⊢
  simp only [if_pos]
  omega

theorem claim_C4_witness :
    (gen_variant ["ATTR_LOD 0 100\n"] 0 false).countP isCloseDir =
      lodCount ["ATTR_LOD 0 100\n"] :=
  claim_C4_close_count ["ATTR_LOD 0 100\n"] 0 false (by decide) (by decide)

/-! ### The exclusion region never reaches the output (C5) -/

/-- C5.  Splicing a balanced, properly nested exclusion region into a
template at any point where the running exclusion counter is non-negative
leaves the generator's output unchanged: no line of the region — sentinels,
nested regions and ordinary lines alike — reaches the output, for every
height and mirror flag. -/
theorem claim_C5_exclusion (A R B : List String) (dh : ℚ) (t : Bool)
    (hreg : IsRegion R) (hA : 0 ≤ ctrAfter A 0) :
    gen_variant (A ++ R ++ B) dh t = gen_variant (A ++ B) dh t := by
  unfold gen_variant
  rw [genLoop_eq, genLoop_eq]
  have h1 : A ++ R ++ B = A ++ (R ++ B) := by rw [List.append_assoc]
  rw [h1, survivorsAux_append, region_skip R B _ hreg hA, ← survivorsAux_append]

theorem claim_C5_witness :
    gen_variant ([] ++ ["# NO-openSAM_begin\n", "# NO-openSAM_end\n"] ++ ["X\n"]) 0 false =
      gen_variant ([] ++ ["X\n"]) 0 false := by
  refine claim_C5_exclusion [] ["# NO-openSAM_begin\n", "# NO-openSAM_end\n"] ["X\n"] 0 false
    ⟨⟨"# NO-openSAM_begin\n", ["# NO-openSAM_end\n"], rfl, by decide⟩, by decide, ?_⟩
    (by decide)
  intro p hp hne hnil
  rcases hp with ⟨s, hs⟩
  cases p with
  | nil => exact absurd rfl hnil
  | cons x p1 =>
      cases p1 with
      | nil =>
          injection hs with h1 _
          subst h1
          decide
      | cons y p2 =>
          injection hs with h1 hs1
          injection hs1 with h2 hs2
          have hp2 : p2 = [] := (List.append_eq_nil.mp hs2).1
          subst h1; subst h2; subst hp2
          exact absurd rfl hne

/-! ### Height at the baseline only renames (C6) -/

/-- C6 as stated is false: even at the baseline height with no mirror flag
the generator appends the final closing directive (and would inject
begin/close directives at every section marker), so the output is not the
renamed template alone. -/
theorem claim_C6_counterexample :
    gen_variant ["hello\n"] 0 false ≠
      ["hello\n"].map (fun l => pyReplace l "AutoDGS" "opensam") := by decide

theorem survivorsAux_plain : ∀ (ls : List String), (∀ l ∈ ls, sentinelDelta l = 0) →
    survivorsAux ls 0 = ls.map (fun l => pyReplace l "AutoDGS" "opensam") := by
  intro ls
  induction ls with
  | nil => intro _; rfl
  | cons l rest ih =>
      intro hall
      have hd := sentinelDelta_zero (hall l (List.mem_cons_self l rest))
      simp only [survivorsAux, hd.1, hd.2, Bool.false_eq_true, if_false, List.map_cons,
        lt_self_iff_false]
      rw [ih (fun x hx => hall x (List.mem_cons_of_mem l hx))]

theorem emitAll_plain {dh : ℚ} {t : Bool} :
    ∀ (svs : List String) (fl : Bool), (∀ x ∈ svs, strContains x "LOD" = false) →
      emitAll dh t fl svs = svs := by
  intro svs
  induction svs with
  | nil => intro _ _; rfl
  | cons l rest ih =>
      intro fl hall
      have hL := hall l (List.mem_cons_self l rest)
      rw [emitAll]
      unfold lineBlock
      simp only [hL, Bool.false_and, Bool.false_eq_true, if_false, List.nil_append,
        List.singleton_append, List.cons_append, List.append_nil]
      rw [ih _ (fun x hx => hall x (List.mem_cons_of_mem l hx))]

/-- C6, amended.  At the baseline height (0) with the mirror flag off, the
output is the template's line sequence with every "AutoDGS" renamed to
"opensam" followed by the one unconditionally appended final close —
exactly the rename and nothing else before that close — provided the
template has no section marker and no exclusion sentinel (each surviving
section marker additionally injects its begin/close directives). -/
theorem claim_C6_rename_only (master : List String)
    (hL : ∀ l ∈ master, strContains (pyReplace l "AutoDGS" "opensam") "LOD" = false)
    (hS : ∀ l ∈ master, sentinelDelta l = 0) :
    gen_variant master 0 false =
      master.map (fun l => pyReplace l "AutoDGS" "opensam") ++ ["\nANIM_end\n"] := by
  unfold gen_variant
  rw [genLoop_eq]
  rw [show survivorsAux master 0 = survivors master from rfl]
  rw [survivors, survivorsAux_plain master hS]
  rw [emitAll_plain _ true (fun x hx => by
    obtain ⟨l, hl, rfl⟩ := List.mem_map.mp hx
    exact hL l hl)]

theorem claim_C6_witness :
    gen_variant ["TEXT AutoDGS\n"] 0 false =
      ["TEXT AutoDGS\n"].map (fun l => pyReplace l "AutoDGS" "opensam") ++ ["\nANIM_end\n"] :=
  claim_C6_rename_only ["TEXT AutoDGS\n"] (by decide) (by decide)

/-! ### Rotation directives for mirrored variants (C3) -/

theorem countPair_append (a b : String) : ∀ (xs ys : List String),
    countPair a b (xs ++ ys) =
      countPair a b xs + bcount a b xs.getLast? ys.head? + countPair a b ys := by
  intro xs
  induction xs with
  | nil =>
      intro ys
      cases ys <;> simp [countPair, bcount]
  | cons x xs ih =>
      intro ys
      cases xs with
      | nil =>
          cases ys with
          | nil => simp [countPair, bcount]
          | cons y ys2 => simp [countPair, bcount]
      | cons x2 xs2 =>
          have h2 := ih ys
          simp only [List.cons_append] at h2 ⊢
          rw [countPair, countPair, h2, List.getLast?_cons_cons]
          omega

theorem bcount_snd {a b : String} {o1 o2 : Option String} (h : o2 ≠ some b) :
    bcount a b o1 o2 = 0 := by
  cases o1 with
  | none => rfl
  | some x =>
      cases o2 with
      | none => rfl
      | some y =>
          have hy : y ≠ b := fun e => h (by rw [e])
          simp [bcount, hy]

theorem bcount_fst {a b : String} {o1 o2 : Option String} (h : o1 ≠ some a) :
    bcount a b o1 o2 = 0 := by
  cases o1 with
  | none => rfl
  | some x =>
      cases o2 with
      | none => rfl
      | some y =>
          have hx : x ≠ a := fun e => h (by rw [e])
          simp [bcount, hx]

theorem count_block_rot {dh : ℚ} {fl : Bool} {l1 : String} (hne : l1 ≠ rotLine) :
    (lineBlock dh true fl l1).count rotLine =
      if strContains l1 "LOD" && !(startsWithL l1 "#") then 1 else 0 := by
  have n1 : ("ANIM_end\n" : String) ≠ rotLine := by decide
  have n2 : ("ANIM_begin\n" : String) ≠ rotLine := by decide
  have n3 := transLine_ne_rot dh
  unfold lineBlock
  by_cases hL : strContains l1 "LOD" <;>
    by_cases hf : fl <;>
      by_cases hr : startsWithL l1 "#" <;>
        by_cases hd : |dh| ≤ eps03 <;>
          simp [hL, hf, hr, hd, List.count_append, List.count_cons, hne, n1, n2, n3]

theorem emitAll_count_rot {dh : ℚ} : ∀ (svs : List String) (fl : Bool),
    (∀ x ∈ svs, x ≠ rotLine) →
      (emitAll dh true fl svs).count rotLine =
        svs.countP (fun l => strContains l "LOD" && !(startsWithL l "#")) := by
  intro svs
  induction svs with
  | nil => intro fl _; rfl
  | cons l rest ih =>
      intro fl hall
      rw [emitAll, List.count_append,
        count_block_rot (hall l (List.mem_cons_self l rest)),
        ih _ (fun x hx => hall x (List.mem_cons_of_mem l hx)), List.countP_cons]
      by_cases hL : strContains l "LOD" <;> by_cases hr : startsWithL l "#" <;>
        simp [hL, hr, Nat.add_comm]

theorem lineBlock_head_ne_rot {dh : ℚ} {t fl : Bool} {l1 : String}
    (hne : l1 ≠ rotLine) :
    (lineBlock dh t fl l1).head? ≠ some rotLine := by
  have n1 : ("ANIM_end\n" : String) ≠ rotLine := by decide
  unfold lineBlock
  by_cases hcf : strContains l1 "LOD" && !fl <;> simp [hcf, hne, n1]

theorem lineBlock_last_ne_rot {dh : ℚ} {t fl : Bool} {l1 : String}
    (hde : ¬ |dh| ≤ eps03) (hne : l1 ≠ rotLine) :
    (lineBlock dh t fl l1).getLast? ≠ some rotLine := by
  have n3 := transLine_ne_rot dh
  unfold lineBlock
  by_cases hL : strContains l1 "LOD" <;>
    by_cases hcf : strContains l1 "LOD" && !fl <;>
      by_cases hr : t && !(startsWithL l1 "#") <;>
        simp [hL, hcf, hr, hde, hne, n3]

theorem lineBlock_ne_nil {dh : ℚ} {t fl : Bool} {l1 : String} :
    lineBlock dh t fl l1 ≠ [] := by
  unfold lineBlock
  intro h
  have := congrArg List.length h
  simp [List.length_append] at this

theorem emitAll_head_ne_rot {dh : ℚ} {t : Bool} (svs : List String) (fl : Bool)
    (hall : ∀ x ∈ svs, x ≠ rotLine) :
    (emitAll dh t fl svs).head? ≠ some rotLine := by
  cases svs with
  | nil => simp [emitAll]
  | cons l rest =>
      rw [emitAll, List.head?_append_of_ne_nil _ lineBlock_ne_nil]
      exact lineBlock_head_ne_rot (hall l (List.mem_cons_self l rest))

theorem emitAll_last_ne_rot {dh : ℚ} {t : Bool} (hde : ¬ |dh| ≤ eps03) :
    ∀ (svs : List String) (fl : Bool), (∀ x ∈ svs, x ≠ rotLine) →
      (emitAll dh t fl svs).getLast? ≠ some rotLine := by
  intro svs
  induction svs with
  | nil => intro fl _; simp [emitAll]
  | cons l rest ih =>
      intro fl hall
      rw [emitAll]
      by_cases h2 : emitAll dh t (if strContains l "LOD" then false else fl) rest = []
      · rw [h2, List.append_nil]
        exact lineBlock_last_ne_rot hde (hall l (List.mem_cons_self l rest))
      · rw [List.getLast?_append_of_ne_nil _ h2]
        exact ih _ (fun x hx => hall x (List.mem_cons_of_mem l hx))

theorem pair_block_begin_rot {dh : ℚ} {fl : Bool} {l1 : String} (hne : l1 ≠ rotLine) :
    countPair "ANIM_begin\n" rotLine (lineBlock dh true fl l1) =
      (lineBlock dh true fl l1).count rotLine := by
  have n1 : ("ANIM_end\n" : String) ≠ rotLine := by decide
  have n2 : ("ANIM_begin\n" : String) ≠ rotLine := by decide
  have n4 : ("ANIM_end\n" : String) ≠ "ANIM_begin\n" := by decide
  have n5 : rotLine ≠ "ANIM_begin\n" := by decide
  have n3 := transLine_ne_rot dh
  have n6 : ∀ q : ℚ, transLine q ≠ "ANIM_begin\n" := transLine_ne_begin
  unfold lineBlock
  by_cases hL : strContains l1 "LOD" <;>
    by_cases hf : fl <;>
      by_cases hr : startsWithL l1 "#" <;>
        by_cases hd : |dh| ≤ eps03 <;>
          simp [hL, hf, hr, hd, countPair, List.count_append, List.count_cons,
            hne, n1, n2, n3, n4, n5, n6 dh]

theorem pair_block_rot_trans {dh : ℚ} {fl : Bool} {l1 : String}
    (hde : ¬ |dh| ≤ eps03) (hne : l1 ≠ rotLine) :
    countPair rotLine (transLine dh) (lineBlock dh true fl l1) =
      (lineBlock dh true fl l1).count rotLine := by
  have n1 : ("ANIM_end\n" : String) ≠ rotLine := by decide
  have n2 : ("ANIM_begin\n" : String) ≠ rotLine := by decide
  have n3 := transLine_ne_rot dh
  unfold lineBlock
  by_cases hL : strContains l1 "LOD" <;>
    by_cases hf : fl <;>
      by_cases hr : startsWithL l1 "#" <;>
        simp [hL, hf, hr, hde, countPair, List.count_append, List.count_cons,
          hne, n1, n2, n3]

theorem emitAll_pair_begin_rot {dh : ℚ} : ∀ (svs : List String) (fl : Bool),
    (∀ x ∈ svs, x ≠ rotLine) →
      countPair "ANIM_begin\n" rotLine (emitAll dh true fl svs) =
        (emitAll dh true fl svs).count rotLine := by
  intro svs
  induction svs with
  | nil => intro fl _; rfl
  | cons l rest ih =>
      intro fl hall
      have hrest : ∀ x ∈ rest, x ≠ rotLine :=
        fun x hx => hall x (List.mem_cons_of_mem l hx)
      rw [emitAll, countPair_append, List.count_append,
        pair_block_begin_rot (hall l (List.mem_cons_self l rest)), ih _ hrest,
        bcount_snd (emitAll_head_ne_rot rest _ hrest)]
      omega

theorem emitAll_pair_rot_trans {dh : ℚ} (hde : ¬ |dh| ≤ eps03) :
    ∀ (svs : List String) (fl : Bool), (∀ x ∈ svs, x ≠ rotLine) →
      countPair rotLine (transLine dh) (emitAll dh true fl svs) =
        (emitAll dh true fl svs).count rotLine := by
  intro svs
  induction svs with
  | nil => intro fl _; rfl
  | cons l rest ih =>
      intro fl hall
      have hrest : ∀ x ∈ rest, x ≠ rotLine :=
        fun x hx => hall x (List.mem_cons_of_mem l hx)
      by_cases h2 : emitAll dh true (if strContains l "LOD" then false else fl) rest = []
      · rw [emitAll, h2, List.append_nil,
          pair_block_rot_trans hde (hall l (List.mem_cons_self l rest))]
      · rw [emitAll, countPair_append, List.count_append,
          pair_block_rot_trans hde (hall l (List.mem_cons_self l rest)), ih _ hrest,
          bcount_fst (lineBlock_last_ne_rot hde (hall l (List.mem_cons_self l rest)))]
        omega

/-- C3.  With the mirror flag set, the output carries exactly one fixed
180-degree rotation directive per surviving non-comment section marker and
none for comment markers (first conjunct); every rotation directive stands
immediately after its section's "ANIM_begin", hence before any translation
directive of that section (second conjunct); and outside epsilon the line
immediately after each rotation directive is that section's translation
directive (third conjunct).  Precondition: no renamed template line is
itself the rotation directive. -/
theorem claim_C3_rotation (master : List String) (dh : ℚ)
    (hm : ∀ l ∈ master, pyReplace l "AutoDGS" "opensam" ≠ rotLine) :
    (gen_variant master dh true).count rotLine =
        (survivors master).countP
          (fun l => strContains l "LOD" && !(startsWithL l "#")) ∧
      countPair "ANIM_begin\n" rotLine (gen_variant master dh true) =
        (gen_variant master dh true).count rotLine ∧
      (eps03 < |dh| →
        countPair rotLine (transLine dh) (gen_variant master dh true) =
          (gen_variant master dh true).count rotLine) := by
  have hall : ∀ x ∈ survivors master, x ≠ rotLine := fun x hx => by
    obtain ⟨l, hl, rfl⟩ := survivorsAux_mem master 0 x hx
    exact hm l hl
  have nf : ("\nANIM_end\n" : String) ≠ rotLine := by decide
  have hout : gen_variant master dh true =
      emitAll dh true true (survivors master) ++ ["\nANIM_end\n"] := by
    unfold gen_variant
    rw [genLoop_eq]
    rfl
  refine ⟨?_, ?_, ?_⟩
  · rw [hout, List.count_append, emitAll_count_rot _ true hall]
    simp [List.count_cons, nf]
  · rw [hout, countPair_append, List.count_append,
      emitAll_pair_begin_rot _ true hall,
      bcount_snd (by simp [nf] : (["\nANIM_end\n"] : List String).head? ≠ some rotLine)]
    simp [countPair, List.count_cons, nf]
  · intro hde1
    have hde : ¬ |dh| ≤ eps03 := not_le.mpr hde1
    rw [hout, countPair_append, List.count_append,
      emitAll_pair_rot_trans hde _ true hall,
      bcount_fst (emitAll_last_ne_rot hde _ true hall)]
    simp [countPair, List.count_cons, nf]

theorem claim_C3_witness :
    (gen_variant ["ATTR_LOD 0 100\n"] 4 true).count rotLine =
        (survivors ["ATTR_LOD 0 100\n"]).countP
          (fun l => strContains l "LOD" && !(startsWithL l "#")) ∧
      countPair "ANIM_begin\n" rotLine (gen_variant ["ATTR_LOD 0 100\n"] 4 true) =
        (gen_variant ["ATTR_LOD 0 100\n"] 4 true).count rotLine ∧
      (eps03 < |(4:ℚ)| →
        countPair rotLine (transLine 4) (gen_variant ["ATTR_LOD 0 100\n"] 4 true) =
          (gen_variant ["ATTR_LOD 0 100\n"] 4 true).count rotLine) :=
  claim_C3_rotation ["ATTR_LOD 0 100\n"] 4 (by decide)

/-! ### The manifest checker (C7) -/

theorem diagLine_data (f : String) : (diagLine f).data =
    "Does not exist: '".data ++
      (targetDir.data ++ ("/".data ++ (f.data ++ "'".data))) := by
  simp [diagLine, String.data_append, List.append_assoc]

theorem diagLine_head (f : String) : (diagLine f).data[0]? = some 'D' := by
  rw [diagLine_data]; rfl

theorem diagLine_ne_pass (f : String) : diagLine f ≠ passLine :=
  ne_of_get 0 (by rw [diagLine_head]; decide)

theorem diagLine_inj : Function.Injective diagLine := by
  intro f g h
  have h2 := congrArg String.data h
  rw [diagLine_data, diagLine_data] at h2
  have h3 := List.append_cancel_left h2
  have h4 := List.append_cancel_left h3
  have h5 := List.append_cancel_left h4
  exact data_inj (List.append_cancel_right h5)

theorem diagLine_isDiag (f : String) :
    startsWithL (diagLine f) "Does not exist" = true := by
  unfold startsWithL
  rw [diagLine_data]
  rfl

theorem pass_not_diag : startsWithL passLine "Does not exist" = false := by decide

theorem check_eq (library : List String) (fs : String → Bool) :
    check library fs =
      ((exportPaths library).dedup.filter
          (fun f => !fs (targetDir ++ "/" ++ f))).map diagLine ++
        (if ((exportPaths library).dedup.filter
            (fun f => !fs (targetDir ++ "/" ++ f))).isEmpty
          then [passLine] else []) := rfl

/-- C7.  The checker reports exactly the missing referenced paths: a
diagnostic for `p` appears in the output iff `p` is the third token of some
EXPORT line and the composed path does not exist; each diagnostic appears at
most once (duplicates deduplicated); the pass line appears iff nothing is
missing, and then it is the whole output; the number of diagnostic lines is
the number of unique missing paths; non-EXPORT lines are ignored. -/
theorem claim_C7_manifest_check (library : List String) (fs : String → Bool)
    (_htok : ∀ l ∈ library, startsWithL l "EXPORT" = true → 3 ≤ (wsTokens l).length) :
    (∀ p : String, diagLine p ∈ check library fs ↔
        (p ∈ exportPaths library ∧ fs (targetDir ++ "/" ++ p) = false)) ∧
      (∀ p : String, (check library fs).count (diagLine p) ≤ 1) ∧
      ((passLine ∈ check library fs) ↔
        ∀ p ∈ exportPaths library, fs (targetDir ++ "/" ++ p) = true) ∧
      ((∀ p ∈ exportPaths library, fs (targetDir ++ "/" ++ p) = true) →
        check library fs = [passLine]) ∧
      ((check library fs).countP (fun s => startsWithL s "Does not exist") =
        ((exportPaths library).dedup.filter
          (fun p => !fs (targetDir ++ "/" ++ p))).length) ∧
      (∀ l : String, startsWithL l "EXPORT" = false →
        check (l :: library) fs = check library fs) := by
  refine ⟨?_, ?_, ?_, ?_, ?_, ?_⟩
  · intro p
    rw [check_eq]
    constructor
    · intro hp
      rcases List.mem_append.mp hp with h | h
      · obtain ⟨q, hq, he⟩ := List.mem_map.mp h
        obtain rfl : q = p := diagLine_inj he
        have hf := List.mem_filter.mp hq
        refine ⟨List.mem_dedup.mp hf.1, ?_⟩
        simpa using hf.2
      · split at h
        · exact absurd (List.mem_singleton.mp h) (diagLine_ne_pass p)
        · simp at h
    · rintro ⟨hmem, hmiss⟩
      apply List.mem_append.mpr
      exact Or.inl (List.mem_map.mpr
        ⟨p, List.mem_filter.mpr ⟨List.mem_dedup.mpr hmem, by simp [hmiss]⟩, rfl⟩)
  · intro p
    rw [check_eq, List.count_append]
    have c1 : (((exportPaths library).dedup.filter
        (fun f => !fs (targetDir ++ "/" ++ f))).map diagLine).count (diagLine p) ≤ 1 := by
      rw [List.count_map_of_injective _ diagLine diagLine_inj p]
      exact List.nodup_iff_count_le_one.mp
        ((List.nodup_dedup (exportPaths library)).filter _) p
    have c2 : (if ((exportPaths library).dedup.filter
          (fun f => !fs (targetDir ++ "/" ++ f))).isEmpty
        then [passLine] else []).count (diagLine p) = 0 := by
      split
      · simp [List.count_cons, Ne.symm (diagLine_ne_pass p)]
      · rfl
    omega
  · by_cases hemp : ((exportPaths library).dedup.filter
        (fun f => !fs (targetDir ++ "/" ++ f))).isEmpty
    · have h0 : (exportPaths library).dedup.filter
          (fun f => !fs (targetDir ++ "/" ++ f)) = [] := by
        rwa [List.isEmpty_iff] at hemp
      have hall : ∀ p ∈ exportPaths library, fs (targetDir ++ "/" ++ p) = true := by
        intro p hp
        have h2 := List.filter_eq_nil_iff.mp h0 p (List.mem_dedup.mpr hp)
        simpa using h2
      rw [check_eq, h0]
      simpa using hall
    · have h0 : ((exportPaths library).dedup.filter
          (fun f => !fs (targetDir ++ "/" ++ f))) ≠ [] := by
        intro hnil
        rw [hnil] at hemp
        exact hemp rfl
      obtain ⟨q, hq⟩ := List.exists_mem_of_ne_nil _ h0
      have hqf := List.mem_filter.mp hq
      have hqmem : q ∈ exportPaths library := List.mem_dedup.mp hqf.1
      have hqmiss : fs (targetDir ++ "/" ++ q) = false := by simpa using hqf.2
      rw [check_eq]
      constructor
      · intro hp
        exfalso
        rcases List.mem_append.mp hp with h | h
        · obtain ⟨r, _, he⟩ := List.mem_map.mp h
          exact diagLine_ne_pass r he
        · rw [if_neg hemp] at h
          simp at h
      · intro hall
        exact absurd (hall q hqmem) (by simp [hqmiss])
  · intro hall
    have h0 : (exportPaths library).dedup.filter
        (fun f => !fs (targetDir ++ "/" ++ f)) = [] := by
      apply List.filter_eq_nil_iff.mpr
      intro p hp
      simp [hall p (List.mem_dedup.mp hp)]
    rw [check_eq, h0]
    rfl
  · rw [check_eq, List.countP_append]
    have c1 : (((exportPaths library).dedup.filter
          (fun f => !fs (targetDir ++ "/" ++ f))).map diagLine).countP
        (fun s => startsWithL s "Does not exist") =
        ((exportPaths library).dedup.filter
          (fun f => !fs (targetDir ++ "/" ++ f))).length := by
      rw [List.countP_map]
      apply List.countP_eq_length.mpr
      intro q _
      simpa using diagLine_isDiag q
    have c2 : (if ((exportPaths library).dedup.filter
          (fun f => !fs (targetDir ++ "/" ++ f))).isEmpty
        then [passLine] else []).countP
        (fun s => startsWithL s "Does not exist") = 0 := by
      split
      · simp [pass_not_diag]
      · rfl
    rw [c1, c2, Nat.add_zero]
  · intro l hl
    have hfil : List.filter (fun x => startsWithL x "EXPORT") (l :: library) =
        List.filter (fun x => startsWithL x "EXPORT") library := by
      simp [List.filter_cons, hl]
    unfold check exportPaths
    rw [hfil]

theorem claim_C7_witness :
    (∀ p : String, diagLine p ∈ check
          ["EXPORT lib x.obj\n", "# c\n", "EXPORT lib x.obj\n", "EXPORT lib y.obj\n"]
          (fun s => s == "../openSAM-pkg/openSAM_Library/x.obj") ↔
        (p ∈ exportPaths
            ["EXPORT lib x.obj\n", "# c\n", "EXPORT lib x.obj\n", "EXPORT lib y.obj\n"] ∧
          (fun s => s == "../openSAM-pkg/openSAM_Library/x.obj")
            (targetDir ++ "/" ++ p) = false)) ∧
      (∀ p : String, (check
          ["EXPORT lib x.obj\n", "# c\n", "EXPORT lib x.obj\n", "EXPORT lib y.obj\n"]
          (fun s => s == "../openSAM-pkg/openSAM_Library/x.obj")).count (diagLine p) ≤ 1) ∧
      ((passLine ∈ check
          ["EXPORT lib x.obj\n", "# c\n", "EXPORT lib x.obj\n", "EXPORT lib y.obj\n"]
          (fun s => s == "../openSAM-pkg/openSAM_Library/x.obj")) ↔
        ∀ p ∈ exportPaths
            ["EXPORT lib x.obj\n", "# c\n", "EXPORT lib x.obj\n", "EXPORT lib y.obj\n"],
          (fun s => s == "../openSAM-pkg/openSAM_Library/x.obj")
            (targetDir ++ "/" ++ p) = true) ∧
      ((∀ p ∈ exportPaths
            ["EXPORT lib x.obj\n", "# c\n", "EXPORT lib x.obj\n", "EXPORT lib y.obj\n"],
          (fun s => s == "../openSAM-pkg/openSAM_Library/x.obj")
            (targetDir ++ "/" ++ p) = true) →
        check ["EXPORT lib x.obj\n", "# c\n", "EXPORT lib x.obj\n", "EXPORT lib y.obj\n"]
            (fun s => s == "../openSAM-pkg/openSAM_Library/x.obj") = [passLine]) ∧
      ((check ["EXPORT lib x.obj\n", "# c\n", "EXPORT lib x.obj\n", "EXPORT lib y.obj\n"]
            (fun s => s == "../openSAM-pkg/openSAM_Library/x.obj")).countP
          (fun s => startsWithL s "Does not exist") =
        ((exportPaths
            ["EXPORT lib x.obj\n", "# c\n", "EXPORT lib x.obj\n", "EXPORT lib y.obj\n"]).dedup.filter
          (fun p => !(fun s => s == "../openSAM-pkg/openSAM_Library/x.obj")
            (targetDir ++ "/" ++ p))).length) ∧
      (∀ l : String, startsWithL l "EXPORT" = false →
        check (l :: ["EXPORT lib x.obj\n", "# c\n", "EXPORT lib x.obj\n", "EXPORT lib y.obj\n"])
            (fun s => s == "../openSAM-pkg/openSAM_Library/x.obj") =
          check ["EXPORT lib x.obj\n", "# c\n", "EXPORT lib x.obj\n", "EXPORT lib y.obj\n"]
            (fun s => s == "../openSAM-pkg/openSAM_Library/x.obj")) :=
  claim_C7_manifest_check
    ["EXPORT lib x.obj\n", "# c\n", "EXPORT lib x.obj\n", "EXPORT lib y.obj\n"]
    (fun s => s == "../openSAM-pkg/openSAM_Library/x.obj") (by decide)

/-! ### The indentation reformatter -/

theorem indentAnim_cons (l : String) (ls : List String) (ind : ℤ) :
    indentAnim (l :: ls) ind =
      (spaces (lineIndent l ind) ++ l) :: indentAnim ls (nextIndent l ind) := by
  by_cases h1 : strContains l "ANIM_begin"
  · simp [indentAnim, lineIndent, nextIndent, h1]
  · by_cases h2 : strContains l "ANIM_end" <;>
      simp [indentAnim, lineIndent, nextIndent, h1, h2]

theorem indentAnim_eq_spec : ∀ (lines : List String) (ind : ℤ),
    indentAnim lines ind = indentSpec lines ind := by
  intro lines
  induction lines with
  | nil => intro ind; rfl
  | cons l ls ih => intro ind; rw [indentAnim_cons, indentSpec, ih]

theorem levels_dvd : ∀ (lines : List String) (ind : ℤ), (4:ℤ) ∣ ind →
    ∀ k ∈ levels lines ind, (4:ℤ) ∣ k := by
  intro lines
  induction lines with
  | nil => intro ind _ k hk; simp [levels] at hk
  | cons l ls ih =>
      intro ind hind k hk
      rw [levels] at hk
      rcases List.mem_cons.mp hk with h | h
      · subst h
        unfold lineIndent
        split
        · exact hind
        · split
          · exact dvd_sub hind ⟨1, by norm_num⟩
          · exact hind
      · refine ih (nextIndent l ind) ?_ k h
        unfold nextIndent
        split
        · exact dvd_add hind ⟨1, by norm_num⟩
        · split
          · exact dvd_sub hind ⟨1, by norm_num⟩
          · exact hind

theorem indentAnim_get : ∀ (lines : List String) (ind : ℤ) (i : Nat) (l : String) (k : ℤ),
    lines[i]? = some l → (levels lines ind)[i]? = some k →
      (indentAnim lines ind)[i]? = some (spaces k ++ l) := by
  intro lines
  induction lines with
  | nil => intro ind i l k hl _; simp at hl
  | cons x ls ih =>
      intro ind i l k hl hk
      rw [indentAnim_cons]
      match i with
      | 0 =>
          rw [levels] at hk
          simp at hl hk ⊢
          subst hl
          rw [hk]
      | i + 1 =>
          rw [levels] at hk
          simp at hl hk ⊢
          exact ih (nextIndent x ind) i l k hl hk

/-- C8.  The indentation reformatter emits every input line in order at the
current indent: it coincides with the spec-modelled single-pass reformatter
(begin lines emitted before the step-up, end lines after a step-down, the
rest at the unchanged level), and every level used is a multiple of the
4-space step. -/
theorem claim_C8_indent_reformatter (lines : List String) :
    indent_anim lines = indentSpec lines 0 ∧
      ∀ k ∈ levels lines 0, (4:ℤ) ∣ k :=
  ⟨indentAnim_eq_spec lines 0, levels_dvd lines 0 (dvd_zero 4)⟩

/-- C9.  Determinism of the generator: two runs on equal templates, equal
heights and equal mirror flags produce identical line sequences. -/
theorem claim_C9_deterministic (m1 m2 : List String) (h1 h2 : ℚ) (b1 b2 : Bool)
    (em : m1 = m2) (eh : h1 = h2) (eb : b1 = b2) :
    gen_variant m1 h1 b1 = gen_variant m2 h2 b2 := by rw [em, eh, eb]

theorem claim_C9_witness :
    gen_variant ["ATTR_LOD 0 100\n"] 0 true = gen_variant ["ATTR_LOD 0 100\n"] 0 true :=
  claim_C9_deterministic _ _ _ _ _ _ rfl rfl rfl

/-- C10.  The reformatter is total on unbalanced input: each line is emitted
with prefix `spaces k` for its level `k`, and when the level has gone
non-positive that prefix is empty, so the line is emitted unchanged — never
with a malformed negative-width prefix. -/
theorem claim_C10_negative_indent (lines : List String) (i : Nat) (l : String) (k : ℤ)
    (hl : lines[i]? = some l) (hk : (levels lines 0)[i]? = some k) :
    (indent_anim lines)[i]? = some (spaces k ++ l) ∧
      (k ≤ 0 → (indent_anim lines)[i]? = some l) := by
  have h := indentAnim_get lines 0 i l k hl hk
  refine ⟨h, fun hneg => ?_⟩
  rwa [spaces_nonpos hneg, empty_append] at h

theorem claim_C10_witness :
    (indent_anim ["ANIM_end\n"])[0]? = some (spaces (-4) ++ "ANIM_end\n") ∧
      ((-4:ℤ) ≤ 0 → (indent_anim ["ANIM_end\n"])[0]? = some "ANIM_end\n") :=
  claim_C10_negative_indent ["ANIM_end\n"] 0 "ANIM_end\n" (-4) (by decide) (by decide)

end OpenSAM
